import Mathlib

/-
Verification development for the pix factory module, a dynamic
object-construction layer over nested data returned from a remote service.
The definitions below are a shallow embedding of src/pix/factory.py:
the class Factory with its registry of behavior base classes, the
dynamic class synthesis get_pix_cls, the shallow content iterator
iter_contents, the deep child iterator iter_children, and the deep
promotion transform objectfy.
-/

namespace Pix

/-- Modelled from the spec: a behavior class registered for a PIX class
name, or the default base pix.model.PIXObject. The module pix.model is
not part of the sources being verified; per the spec a behavior class is
an opaque capability implementation, so behavior classes are represented
by an abstract identifier and the default base by a dedicated
constructor. -/
inductive BCls where
  | PIXObject
  | behavior (clsName : String)
deriving DecidableEq

/-- A synthesized type, as built by Factory.get_pix_cls via
type(str(name), tuple(bases), ...): it is determined by its name and its
ordered tuple of base classes. -/
structure PixType where
  name : String
  bases : List BCls
deriving DecidableEq

/-- A Python value as handled by the factory: None, bool, int, str,
dict (a keyed mapping, modelled as its ordered list of entries), list,
tuple, set (modelled as its list of elements), a promoted object, or an
opaque unsupported scalar. Modelled from the spec: a Promoted Object
(vobj) is an instance of a synthesized type wrapping the raw mapping it
was built from; pix.model is not under the verified sources, and per the
spec a Promoted Object is not itself a dict, sequence or set, so it is a
separate constructor holding the synthesized type and the wrapped raw
mapping. The factory back-reference passed to the constructor carries no
data and is not modelled. -/
inductive Value where
  | vnull
  | vbool (b : Bool)
  | vint (n : Int)
  | vstr (s : String)
  | vdict (entries : List (String × Value))
  | vlist (elems : List Value)
  | vtuple (elems : List Value)
  | vset (elems : List Value)
  | vobj (cls : PixType) (data : List (String × Value))
  | vother (id : Nat)

/-- Python truthiness of a value, as used by the source in the guards
if pixCls and if objCls. -/
def truthy : Value → Bool
  | .vnull => false
  | .vbool b => b
  | .vint n => n != 0
  | .vstr s => s != ""
  | .vdict es => !es.isEmpty
  | .vlist xs => !xs.isEmpty
  | .vtuple xs => !xs.isEmpty
  | .vset xs => !xs.isEmpty
  | .vobj _ _ => true
  | .vother _ => true

/-- Python dict.get with default None: first entry whose key matches. -/
def pyGet {β : Type} (es : List (String × β)) (k : String) : Option β :=
  match es with
  | [] => none
  | (k1, v) :: rest => if k1 = k then some v else pyGet rest k

/-- Python dict item assignment d[k] = v: replaces the value in place if
the key is present, appends a new entry otherwise. -/
def pyDictSet {β : Type} (es : List (String × β)) (k : String) (v : β) :
    List (String × β) :=
  if es.any (fun p => p.1 == k) then
    es.map (fun p => if p.1 = k then (k, v) else p)
  else
    es ++ [(k, v)]

/-- Python str() of a value, as applied by get_pix_cls via str(name).
Only string tags occur in the properties checked here; for container
values the precise repr text is not modelled. -/
def pyStr : Value → String
  | .vstr s => s
  | .vnull => "None"
  | .vbool true => "True"
  | .vbool false => "False"
  | .vint n => toString n
  | _ => "object"

mutual
/-- Python structural equality between values, used to model Python set
semantics. Promoted objects are compared structurally. -/
def Value.beq : Value → Value → Bool
  | .vnull, .vnull => true
  | .vbool a, .vbool b => a == b
  | .vint a, .vint b => a == b
  | .vstr a, .vstr b => a == b
  | .vdict a, .vdict b => Value.beqEntries a b
  | .vlist a, .vlist b => Value.beqList a b
  | .vtuple a, .vtuple b => Value.beqList a b
  | .vset a, .vset b => Value.beqList a b
  | .vobj c a, .vobj c2 b => decide (c = c2) && Value.beqEntries a b
  | .vother a, .vother b => a == b
  | _, _ => false

/-- Structural equality of dict entry lists. -/
def Value.beqEntries : List (String × Value) → List (String × Value) → Bool
  | [], [] => true
  | (k, v) :: r, (k2, v2) :: r2 =>
    k == k2 && Value.beq v v2 && Value.beqEntries r r2
  | _, _ => false

/-- Structural equality of element lists. -/
def Value.beqList : List Value → List Value → Bool
  | [], [] => true
  | v :: r, v2 :: r2 => Value.beq v v2 && Value.beqList r r2
  | _, _ => false
end

/-- Helper for pySetCtor: inserts each element of the second list into
the accumulator unless an equal element is already present. -/
def pySetAux (acc : List Value) : List Value → List Value
  | [] => acc
  | x :: rest =>
    if acc.any (fun y => Value.beq y x) then pySetAux acc rest
    else pySetAux (acc ++ [x]) rest

/-- The Python set constructor set(results) applied to a list: keeps one
representative of each equality class, first occurrence first. The
iteration order of a Python set is unspecified; only membership and size
are meaningful. -/
def pySetCtor (xs : List Value) : List Value := pySetAux [] xs

/-- A list with pairwise non-equal elements: the invariant of the element
list of a Python set. -/
def pyNodup : List Value → Bool
  | [] => true
  | x :: rest => !(rest.any (fun y => Value.beq x y)) && pyNodup rest

/-- The process-wide registry Factory._registered: a dict from PIX class
name to the ordered list of registered base classes. -/
abbrev Registry : Type := List (String × List BCls)

/-- Factory.register applied to one class: register(pixCls) returns a
decorator that appends klass to the list stored under pixCls (creating it
if absent) and returns klass itself. The result is the updated registry
paired with the returned class. -/
def register (reg : Registry) (pixCls : String) (klass : BCls) :
    Registry × BCls :=
  (pyDictSet reg pixCls ((pyGet reg pixCls).getD [] ++ [klass]), klass)

/-- Factory.get_pix_cls: builds a pix object class named str(name) whose
bases are the registered classes for str(name), or the single default
base pix.model.PIXObject if none are registered. -/
def get_pix_cls (reg : Registry) (name : Value) : PixType :=
  ⟨pyStr name, (pyGet reg (pyStr name)).getD [BCls.PIXObject]⟩

mutual
/-- Factory.objectfy: replaces any viable structure with a promoted
object. A dict carrying a truthy class entry becomes one promoted object
wrapping that dict unchanged; any other dict is rebuilt with objectfy
applied to each value; a list, tuple or set is rebuilt as the same
container kind with objectfy applied to each element; anything else is
returned unchanged. -/
def objectfy (reg : Registry) : Value → Value
  | .vdict es =>
    match pyGet es "class" with
    | some objCls =>
      if truthy objCls then .vobj (get_pix_cls reg objCls) es
      else .vdict (objectfyEntries reg es)
    | none => .vdict (objectfyEntries reg es)
  | .vtuple xs => .vtuple (objectfyList reg xs)
  | .vlist xs => .vlist (objectfyList reg xs)
  | .vset xs => .vset (pySetCtor (objectfyList reg xs))
  | v => v

/-- The dict comprehension in objectfy: same keys, objectfy applied to
each value. -/
def objectfyEntries (reg : Registry) :
    List (String × Value) → List (String × Value)
  | [] => []
  | (k, v) :: rest => (k, objectfy reg v) :: objectfyEntries reg rest

/-- The list comprehension in objectfy: objectfy applied to each
element. -/
def objectfyList (reg : Registry) : List Value → List Value
  | [] => []
  | v :: rest => objectfy reg v :: objectfyList reg rest
end

theorem objectfyEntries_eq_map (reg : Registry) (es : List (String × Value)) :
    objectfyEntries reg es = es.map (fun kv => (kv.1, objectfy reg kv.2)) := by
  induction es with
  | nil => rfl
  | cons kv rest ih =>
    obtain ⟨k, v⟩ := kv
    simp [objectfyEntries, ih]

theorem objectfyList_eq_map (reg : Registry) (xs : List Value) :
    objectfyList reg xs = xs.map (objectfy reg) := by
  induction xs with
  | nil => rfl
  | cons v rest ih => simp [objectfyList, ih]

theorem objectfy_tagged (reg : Registry) (es : List (String × Value))
    (tag : Value) (h1 : pyGet es "class" = some tag)
    (h2 : truthy tag = true) :
    objectfy reg (.vdict es) = .vobj (get_pix_cls reg tag) es := by
  conv_lhs => rw [objectfy]
  rw [h1]
  simp [h2]

theorem objectfy_untagged_none (reg : Registry) (es : List (String × Value))
    (h1 : pyGet es "class" = none) :
    objectfy reg (.vdict es) =
      .vdict (es.map (fun kv => (kv.1, objectfy reg kv.2))) := by
  conv_lhs => rw [objectfy]
  rw [h1]
  exact congrArg Value.vdict (objectfyEntries_eq_map reg es)

theorem objectfy_untagged_falsy (reg : Registry) (es : List (String × Value))
    (tag : Value) (h1 : pyGet es "class" = some tag)
    (h2 : truthy tag = false) :
    objectfy reg (.vdict es) =
      .vdict (es.map (fun kv => (kv.1, objectfy reg kv.2))) := by
  conv_lhs => rw [objectfy]
  rw [h1]
  simp only [h2, Bool.false_eq_true, if_false]
  exact congrArg Value.vdict (objectfyEntries_eq_map reg es)

/-- Helper for iter_contents: the isinstance dict test applied to a list
element, returning the entries of the element when it is a dict. -/
def asDict : Value → Option (List (String × Value))
  | .vdict es => some es
  | _ => none

/-- Factory.iter_contents: iterates the immediate contents of a dict and
yields every dictionary found, without recursing. For each entry, a dict
value is yielded itself, and a set, list or tuple value has its dict
elements yielded in order. A dict is represented by its entry list. -/
def iter_contents (data : List (String × Value)) :
    List (List (String × Value)) :=
  data.flatMap fun kv =>
    match kv.2 with
    | .vdict es => [es]
    | .vset xs => xs.filterMap asDict
    | .vlist xs => xs.filterMap asDict
    | .vtuple xs => xs.filterMap asDict
    | _ => []

theorem sizeOf_lt_of_mem_iter_contents {es : List (String × Value)}
    {data : List (String × Value)} (h : es ∈ iter_contents data) :
    sizeOf es < sizeOf data := by
  unfold iter_contents at h
  rw [List.mem_flatMap] at h
  obtain ⟨kv, hkv, hmem⟩ := h
  have hlt : sizeOf kv < sizeOf data := List.sizeOf_lt_of_mem hkv
  obtain ⟨k, v⟩ := kv
  simp only at hmem
  cases v with
  | vdict es2 =>
    simp only [List.mem_singleton] at hmem
    subst hmem
    simp at hlt
    omega
  | vset xs =>
    rw [List.mem_filterMap] at hmem
    obtain ⟨x, hx, hax⟩ := hmem
    have hxs : sizeOf x < sizeOf xs := List.sizeOf_lt_of_mem hx
    cases x <;> simp [asDict] at hax
    subst hax
    simp at hlt hxs
    omega
  | vlist xs =>
    rw [List.mem_filterMap] at hmem
    obtain ⟨x, hx, hax⟩ := hmem
    have hxs : sizeOf x < sizeOf xs := List.sizeOf_lt_of_mem hx
    cases x <;> simp [asDict] at hax
    subst hax
    simp at hlt hxs
    omega
  | vtuple xs =>
    rw [List.mem_filterMap] at hmem
    obtain ⟨x, hx, hax⟩ := hmem
    have hxs : sizeOf x < sizeOf xs := List.sizeOf_lt_of_mem hx
    cases x <;> simp [asDict] at hax
    subst hax
    simp at hlt hxs
    omega
  | _ => simp at hmem

/-- The first phase of Factory.iter_children: pixCls = data.get(class);
if pixCls is truthy, one promoted object wrapping data is yielded. -/
def iter_children_head (reg : Registry) (data : List (String × Value)) :
    List Value :=
  match pyGet data "class" with
  | some pixCls =>
    if truthy pixCls then [Value.vobj (get_pix_cls reg pixCls) data] else []
  | none => []

/-- Factory.iter_children: yields the promoted object of data itself when
data carries a truthy class entry, then, if recursive, for every dict
yielded by iter_contents over data, recursively yields every object of
that child with recursive forced true. -/
def iter_children (reg : Registry) (data : List (String × Value))
    (recursive : Bool) : List Value :=
  iter_children_head reg data ++
  (if recursive then
    (iter_contents data).attach.flatMap (fun x => iter_children reg x.1 true)
   else [])
termination_by sizeOf data
decreasing_by
  exact sizeOf_lt_of_mem_iter_contents x.2

theorem iter_children_eq (reg : Registry) (data : List (String × Value))
    (recursive : Bool) :
    iter_children reg data recursive =
      iter_children_head reg data ++
      (if recursive then
        (iter_contents data).flatMap (fun x => iter_children reg x true)
       else []) := by
  rw [iter_children]
  congr 1
  split
  · rw [List.flatMap_def,
      List.attach_map_val (iter_contents data) (fun x => iter_children reg x true),
      ← List.flatMap_def]
  · rfl

theorem iter_children_head_tagged (reg : Registry)
    (data : List (String × Value)) (tag : Value)
    (h1 : pyGet data "class" = some tag) (h2 : truthy tag = true) :
    iter_children_head reg data = [Value.vobj (get_pix_cls reg tag) data] := by
  unfold iter_children_head
  rw [h1]
  simp [h2]

theorem iter_children_head_falsy (reg : Registry)
    (data : List (String × Value)) (tag : Value)
    (h1 : pyGet data "class" = some tag) (h2 : truthy tag = false) :
    iter_children_head reg data = [] := by
  unfold iter_children_head
  rw [h1]
  simp [h2]

theorem iter_children_tagged (reg : Registry) (data : List (String × Value))
    (tag : Value) (h1 : pyGet data "class" = some tag)
    (h2 : truthy tag = true) :
    iter_children reg data true =
      Value.vobj (get_pix_cls reg tag) data ::
        (iter_contents data).flatMap (fun x => iter_children reg x true) := by
  rw [iter_children_eq, iter_children_head_tagged reg data tag h1 h2]
  simp

theorem iter_children_falsy (reg : Registry) (data : List (String × Value))
    (tag : Value) (h1 : pyGet data "class" = some tag)
    (h2 : truthy tag = false) :
    iter_children reg data true =
      (iter_contents data).flatMap (fun x => iter_children reg x true) := by
  rw [iter_children_eq, iter_children_head_falsy reg data tag h1 h2]
  simp

mutual
/-- Python hashability of a value: dicts, lists and sets are unhashable
and can never be members of a Python set; scalars, objects and tuples of
hashable values are hashable. Used to express the hypothesis that a set
input is a possible Python set. -/
def hashable : Value → Bool
  | .vnull => true
  | .vbool _ => true
  | .vint _ => true
  | .vstr _ => true
  | .vdict _ => false
  | .vlist _ => false
  | .vset _ => false
  | .vtuple xs => hashableList xs
  | .vobj _ _ => true
  | .vother _ => true

/-- Hashability of every element of a list. -/
def hashableList : List Value → Bool
  | [] => true
  | v :: rest => hashable v && hashableList rest
end

/-- State-threaded translation of Factory.get_pix_cls: the registry is
accessed only through the read cls._registered.get(str(name), ...), so
the explicit threading returns the registry it was given. -/
def get_pix_clsS (reg : Registry) (name : Value) : PixType × Registry :=
  (⟨pyStr name, (pyGet reg (pyStr name)).getD [BCls.PIXObject]⟩, reg)

mutual
/-- State-threaded translation of Factory.objectfy: every access to the
process-wide registry is threaded explicitly, so that the absence of
registry mutation is a theorem rather than a modelling assumption. -/
def objectfyS (reg : Registry) : Value → Value × Registry
  | .vdict es =>
    match pyGet es "class" with
    | some objCls =>
      if truthy objCls then
        let p := get_pix_clsS reg objCls
        (.vobj p.1 es, p.2)
      else
        let q := objectfyEntriesS reg es
        (.vdict q.1, q.2)
    | none =>
      let q := objectfyEntriesS reg es
      (.vdict q.1, q.2)
  | .vtuple xs =>
    let q := objectfyListS reg xs
    (.vtuple q.1, q.2)
  | .vlist xs =>
    let q := objectfyListS reg xs
    (.vlist q.1, q.2)
  | .vset xs =>
    let q := objectfyListS reg xs
    (.vset (pySetCtor q.1), q.2)
  | v => (v, reg)

/-- State-threaded dict comprehension of objectfy. -/
def objectfyEntriesS (reg : Registry) :
    List (String × Value) → List (String × Value) × Registry
  | [] => ([], reg)
  | (k, v) :: rest =>
    let p := objectfyS reg v
    let q := objectfyEntriesS p.2 rest
    ((k, p.1) :: q.1, q.2)

/-- State-threaded list comprehension of objectfy. -/
def objectfyListS (reg : Registry) : List Value → List Value × Registry
  | [] => ([], reg)
  | v :: rest =>
    let p := objectfyS reg v
    let q := objectfyListS p.2 rest
    (p.1 :: q.1, q.2)
end

/-- State-threaded first phase of Factory.iter_children. -/
def iter_children_headS (reg : Registry) (data : List (String × Value)) :
    List Value × Registry :=
  match pyGet data "class" with
  | some pixCls =>
    if truthy pixCls then
      let p := get_pix_clsS reg pixCls
      ([Value.vobj p.1 data], p.2)
    else ([], reg)
  | none => ([], reg)

mutual
/-- State-threaded, fuel-indexed translation of Factory.iter_children:
returns none when the fuel runs out, and otherwise the yielded objects
together with the registry as left by the run. -/
def iter_childrenSF : Nat → Registry → List (String × Value) → Bool →
    Option (List Value × Registry)
  | 0, _, _, _ => none
  | fuel + 1, reg, data, recursive =>
    let first := iter_children_headS reg data
    match (if recursive then iterKidsSF fuel first.2 (iter_contents data)
           else some ([], first.2)) with
    | none => none
    | some rest => some (first.1 ++ rest.1, rest.2)

/-- State-threaded loop of iter_children over the dicts yielded by
iter_contents. -/
def iterKidsSF : Nat → Registry → List (List (String × Value)) →
    Option (List Value × Registry)
  | 0, _, _ => none
  | _ + 1, reg, [] => some ([], reg)
  | fuel + 1, reg, x :: xs =>
    match iter_childrenSF fuel reg x true with
    | none => none
    | some p =>
      match iterKidsSF fuel p.2 xs with
      | none => none
      | some q => some (p.1 ++ q.1, q.2)
end

theorem pyGet_map_set {β : Type} (k : String) (v : β) :
    ∀ es : List (String × β),
      pyGet (es.map (fun p => if p.1 = k then (k, v) else p)) k =
        (pyGet es k).map (fun _ => v) := by
  intro es
  induction es with
  | nil => rfl
  | cons p rest ih =>
    obtain ⟨k1, w⟩ := p
    by_cases hk : k1 = k
    · subst hk
      rw [List.map_cons]
      have hhead : ((if (k1, w).1 = k1 then (k1, v) else (k1, w)) :
          String × β) = (k1, v) := by simp
      rw [hhead]
      simp [pyGet]
    · have hhead : ((if (k1, w).1 = k then (k, v) else (k1, w)) : String × β) =
          (k1, w) := by
        simp [hk]
      rw [List.map_cons, hhead]
      simp only [pyGet]
      rw [if_neg hk, if_neg hk]
      exact ih

theorem pyGet_append_new {β : Type} (k : String) (v : β) :
    ∀ es : List (String × β), (es.any fun p => p.1 == k) = false →
      pyGet (es ++ [(k, v)]) k = some v := by
  intro es
  induction es with
  | nil =>
    intro h
    simp [pyGet]
  | cons p rest ih =>
    intro hany
    obtain ⟨k1, w⟩ := p
    rw [List.any_cons, Bool.or_eq_false_iff] at hany
    have hk : ¬ (k1 = k) := by
      intro he
      rw [he] at hany
      simp at hany
    rw [List.cons_append]
    simp only [pyGet]
    rw [if_neg hk]
    exact ih hany.2

theorem pyGet_some_of_any {β : Type} (k : String) :
    ∀ es : List (String × β), (es.any fun p => p.1 == k) = true →
      ∃ w, pyGet es k = some w := by
  intro es
  induction es with
  | nil =>
    intro h
    simp at h
  | cons p rest ih =>
    intro hany
    obtain ⟨k1, w⟩ := p
    by_cases hk : k1 = k
    · exact ⟨w, by simp [pyGet, hk]⟩
    · rw [List.any_cons] at hany
      simp only [Bool.or_eq_true, beq_iff_eq] at hany
      obtain ⟨w2, hw2⟩ := ih (by
        rcases hany with h | h
        · exact absurd h hk
        · exact h)
      refine ⟨w2, ?_⟩
      simp only [pyGet]
      rw [if_neg hk]
      exact hw2

theorem pyGet_pyDictSet_self {β : Type} (es : List (String × β)) (k : String)
    (v : β) : pyGet (pyDictSet es k v) k = some v := by
  unfold pyDictSet
  split
  · rename_i hany
    obtain ⟨w, hw⟩ := pyGet_some_of_any k es hany
    rw [pyGet_map_set k v es, hw]
    rfl
  · rename_i hany
    rw [Bool.not_eq_true] at hany
    exact pyGet_append_new k v es hany

theorem register_lookup (reg : Registry) (n : String) (B : BCls) :
    pyGet (register reg n B).1 n = some ((pyGet reg n).getD [] ++ [B]) :=
  pyGet_pyDictSet_self reg n _

theorem objectfy_hashable_fix_aux :
    ∀ n : Nat,
      (∀ (reg : Registry) (v : Value), sizeOf v ≤ n → hashable v = true →
        objectfy reg v = v) ∧
      (∀ (reg : Registry) (xs : List Value), sizeOf xs ≤ n →
        hashableList xs = true → objectfyList reg xs = xs) := by
  intro n
  induction n with
  | zero =>
    constructor
    · intro reg v hv
      exfalso
      cases v <;> simp at hv
    · intro reg xs hx
      exfalso
      cases xs <;> simp at hx
  | succ n ih =>
    obtain ⟨ih1, ih2⟩ := ih
    constructor
    · intro reg v hv hh
      cases v with
      | vnull => rfl
      | vbool b => rfl
      | vint m => rfl
      | vstr s => rfl
      | vdict es => simp [hashable] at hh
      | vlist xs => simp [hashable] at hh
      | vset xs => simp [hashable] at hh
      | vtuple xs =>
        have hsz : sizeOf xs ≤ n := by
          simp at hv
          omega
        have hl : hashableList xs = true := hh
        show Value.vtuple (objectfyList reg xs) = Value.vtuple xs
        rw [ih2 reg xs hsz hl]
      | vobj c d => rfl
      | vother i => rfl
    · intro reg xs hx hh
      cases xs with
      | nil => rfl
      | cons v rest =>
        have h1 : sizeOf v ≤ n := by
          simp at hx
          omega
        have h2 : sizeOf rest ≤ n := by
          simp at hx
          omega
        rw [hashableList, Bool.and_eq_true] at hh
        show objectfy reg v :: objectfyList reg rest = v :: rest
        rw [ih1 reg v h1 hh.1, ih2 reg rest h2 hh.2]

theorem objectfy_of_hashable (reg : Registry) (v : Value)
    (h : hashable v = true) : objectfy reg v = v :=
  (objectfy_hashable_fix_aux (sizeOf v)).1 reg v le_rfl h

theorem objectfyList_of_hashableList (reg : Registry) (xs : List Value)
    (h : hashableList xs = true) : objectfyList reg xs = xs :=
  (objectfy_hashable_fix_aux (sizeOf xs)).2 reg xs le_rfl h

theorem map_objectfy_of_hashableList (reg : Registry) (xs : List Value)
    (h : hashableList xs = true) : xs.map (objectfy reg) = xs := by
  rw [← objectfyList_eq_map]
  exact objectfyList_of_hashableList reg xs h

theorem pySetAux_of_nodup :
    ∀ (xs acc : List Value),
      (∀ z ∈ xs, (acc.any fun y => Value.beq y z) = false) →
      pyNodup xs = true → pySetAux acc xs = acc ++ xs := by
  intro xs
  induction xs with
  | nil =>
    intro acc h1 h2
    simp [pySetAux]
  | cons x rest ih =>
    intro acc h1 h2
    have hx : (acc.any fun y => Value.beq y x) = false :=
      h1 x (List.mem_cons_self x rest)
    rw [pyNodup, Bool.and_eq_true] at h2
    have hxr : (rest.any fun y => Value.beq x y) = false := by
      have hb := h2.1
      rwa [Bool.not_eq_true'] at hb
    rw [pySetAux, hx]
    simp only [Bool.false_eq_true, if_false]
    rw [ih (acc ++ [x]) ?hacc h2.2]
    · simp
    case hacc =>
      intro z hz
      rw [List.any_append, Bool.or_eq_false_iff]
      refine ⟨h1 z (List.mem_cons_of_mem x hz), ?_⟩
      rw [List.any_eq_false] at hxr ⊢
      intro y hy
      rw [List.mem_singleton] at hy
      subst hy
      exact hxr z hz

theorem pySetCtor_of_nodup (xs : List Value) (h : pyNodup xs = true) :
    pySetCtor xs = xs := by
  unfold pySetCtor
  rw [pySetAux_of_nodup xs [] (fun z _ => rfl) h]
  rfl

theorem objectfyS_frame_aux :
    ∀ n : Nat,
      (∀ (reg : Registry) (v : Value), sizeOf v ≤ n →
        objectfyS reg v = (objectfy reg v, reg)) ∧
      (∀ (reg : Registry) (es : List (String × Value)), sizeOf es ≤ n →
        objectfyEntriesS reg es = (objectfyEntries reg es, reg)) ∧
      (∀ (reg : Registry) (xs : List Value), sizeOf xs ≤ n →
        objectfyListS reg xs = (objectfyList reg xs, reg)) := by
  intro n
  induction n with
  | zero =>
    refine ⟨?_, ?_, ?_⟩
    · intro reg v hv
      exfalso
      cases v <;> simp at hv
    · intro reg es he
      exfalso
      cases es <;> simp at he
    · intro reg xs hx
      exfalso
      cases xs <;> simp at hx
  | succ n ih =>
    obtain ⟨ih1, ih2, ih3⟩ := ih
    refine ⟨?_, ?_, ?_⟩
    · intro reg v hv
      cases v with
      | vdict es =>
        have hes : sizeOf es ≤ n := by
          simp at hv
          omega
        cases hg : pyGet es "class" with
        | none =>
          simp only [objectfyS, objectfy, hg, ih2 reg es hes]
        | some tag =>
          cases ht : truthy tag with
          | true =>
            simp only [objectfyS, objectfy, hg, ht, if_true, get_pix_clsS,
              get_pix_cls]
          | false =>
            simp only [objectfyS, objectfy, hg, ht, Bool.false_eq_true,
              if_false, ih2 reg es hes]
      | vtuple xs =>
        have hxs : sizeOf xs ≤ n := by
          simp at hv
          omega
        simp only [objectfyS, objectfy, ih3 reg xs hxs]
      | vlist xs =>
        have hxs : sizeOf xs ≤ n := by
          simp at hv
          omega
        simp only [objectfyS, objectfy, ih3 reg xs hxs]
      | vset xs =>
        have hxs : sizeOf xs ≤ n := by
          simp at hv
          omega
        simp only [objectfyS, objectfy, ih3 reg xs hxs]
      | vnull => rfl
      | vbool b => rfl
      | vint m => rfl
      | vstr s => rfl
      | vobj c d => rfl
      | vother i => rfl
    · intro reg es he
      cases es with
      | nil => rfl
      | cons kv rest =>
        obtain ⟨k, v⟩ := kv
        have h1 : sizeOf v ≤ n := by
          simp at he
          omega
        have h2 : sizeOf rest ≤ n := by
          simp at he
          omega
        simp only [objectfyEntriesS, objectfyEntries, ih1 reg v h1,
          ih2 reg rest h2]
    · intro reg xs hx
      cases xs with
      | nil => rfl
      | cons v rest =>
        have h1 : sizeOf v ≤ n := by
          simp at hx
          omega
        have h2 : sizeOf rest ≤ n := by
          simp at hx
          omega
        simp only [objectfyListS, objectfyList, ih1 reg v h1, ih3 reg rest h2]

theorem objectfyS_frame (reg : Registry) (v : Value) :
    objectfyS reg v = (objectfy reg v, reg) :=
  (objectfyS_frame_aux (sizeOf v)).1 reg v le_rfl

theorem iter_children_headS_frame (reg : Registry)
    (data : List (String × Value)) :
    iter_children_headS reg data = (iter_children_head reg data, reg) := by
  unfold iter_children_headS iter_children_head
  cases hg : pyGet data "class" with
  | none => rfl
  | some tag =>
    cases ht : truthy tag with
    | true => simp [ht, get_pix_clsS, get_pix_cls]
    | false => simp [ht]

theorem iter_childrenSF_frame :
    ∀ fuel : Nat,
      (∀ (reg : Registry) (data : List (String × Value)) (r : Bool)
         (out : List Value) (reg2 : Registry),
        iter_childrenSF fuel reg data r = some (out, reg2) →
        reg2 = reg ∧ out = iter_children reg data r) ∧
      (∀ (reg : Registry) (l : List (List (String × Value)))
         (out : List Value) (reg2 : Registry),
        iterKidsSF fuel reg l = some (out, reg2) →
        reg2 = reg ∧ out = l.flatMap (fun x => iter_children reg x true)) := by
  intro fuel
  induction fuel with
  | zero =>
    constructor
    · intro reg data r out reg2 h
      simp [iter_childrenSF] at h
    · intro reg l out reg2 h
      simp [iterKidsSF] at h
  | succ fuel ih =>
    obtain ⟨ih1, ih2⟩ := ih
    constructor
    · intro reg data r out reg2 h
      rw [iter_childrenSF, iter_children_headS_frame] at h
      cases r with
      | false =>
        simp only [Bool.false_eq_true, if_false, Option.some.injEq,
          Prod.mk.injEq] at h
        obtain ⟨h1, h2⟩ := h
        subst h1
        subst h2
        refine ⟨rfl, ?_⟩
        rw [iter_children_eq]
        simp
      | true =>
        simp only [if_true] at h
        cases hk : iterKidsSF fuel reg (iter_contents data) with
        | none =>
          rw [hk] at h
          simp at h
        | some p =>
          rw [hk] at h
          simp only [Option.some.injEq, Prod.mk.injEq] at h
          obtain ⟨h1, h2⟩ := h
          obtain ⟨hp2, hp1⟩ := ih2 reg (iter_contents data) p.1 p.2
            (by rw [hk])
          subst h1
          subst h2
          refine ⟨hp2, ?_⟩
          rw [iter_children_eq]
          simp only [if_true]
          rw [hp1]
    · intro reg l out reg2 h
      cases l with
      | nil =>
        rw [iterKidsSF] at h
        simp only [Option.some.injEq, Prod.mk.injEq] at h
        obtain ⟨h1, h2⟩ := h
        subst h1
        subst h2
        exact ⟨rfl, by simp⟩
      | cons x xs =>
        rw [iterKidsSF] at h
        cases hc : iter_childrenSF fuel reg x true with
        | none =>
          rw [hc] at h
          simp at h
        | some p =>
          rw [hc] at h
          simp only at h
          cases hk2 : iterKidsSF fuel p.2 xs with
          | none =>
            rw [hk2] at h
            simp at h
          | some q =>
            rw [hk2] at h
            simp only [Option.some.injEq, Prod.mk.injEq] at h
            obtain ⟨h1, h2⟩ := h
            obtain ⟨hp2, hp1⟩ := ih1 reg x true p.1 p.2 (by rw [hc])
            obtain ⟨hq2, hq1⟩ := ih2 p.2 xs q.1 q.2 (by rw [hk2])
            subst h1
            subst h2
            refine ⟨by rw [hq2, hp2], ?_⟩
            rw [List.flatMap_cons, hp1, hq1, hp2]

/-- A value that is neither a mapping nor a sequence nor a set nor a
promoted object: None, bool, int, str, or an opaque unsupported value. -/
def isScalar : Value → Bool
  | .vnull => true
  | .vbool _ => true
  | .vint _ => true
  | .vstr _ => true
  | .vother _ => true
  | _ => false

/-- The nested tagged mapping of the spec examples: a dict whose class
entry is Bar. -/
def barEntries : List (String × Value) := [("class", .vstr "Bar")]

/-- The tagged mapping of the spec examples: a dict whose class entry is
Foo and whose children list holds the Bar dict. -/
def fooEntries : List (String × Value) :=
  [("class", .vstr "Foo"), ("children", .vlist [.vdict barEntries])]

/-- The type synthesized for Foo with no registrations. -/
def fooType : PixType := ⟨"Foo", [BCls.PIXObject]⟩

/-- The type synthesized for Bar with no registrations. -/
def barType : PixType := ⟨"Bar", [BCls.PIXObject]⟩

/-- The untagged mapping of the spec example: keys a and b, no class
entry. -/
def abEntries : List (String × Value) :=
  [("a", .vint 1), ("b", .vlist [.vint 1, .vint 2, .vint 3])]

/-- A mapping whose class entry is present but falsy (the empty string),
with a tagged descendant. -/
def falsyEntries : List (String × Value) :=
  [("class", .vstr ""), ("children", .vlist [.vdict barEntries])]

/-- C1: for every mapping carrying a truthy class entry, objectfy returns
exactly one promoted object of the synthesized type wrapping the
original, unmodified entry list, so nested tagged mappings inside it stay
raw; in particular the Foo dict with a nested Bar dict becomes a single
Foo object wrapping the original entries with the Bar dict untouched. -/
theorem C1_objectfy_promotion_stops_at_boundary :
    (∀ (reg : Registry) (es : List (String × Value)) (tag : Value),
      pyGet es "class" = some tag → truthy tag = true →
      objectfy reg (.vdict es) = .vobj (get_pix_cls reg tag) es) ∧
    objectfy [] (.vdict fooEntries) = .vobj fooType fooEntries := by
  constructor
  · intro reg es tag h1 h2
    exact objectfy_tagged reg es tag h1 h2
  · rfl

theorem C1_witness :
    objectfy [] (.vdict barEntries) = .vobj (get_pix_cls [] (.vstr "Bar")) barEntries :=
  C1_objectfy_promotion_stops_at_boundary.1 [] barEntries (.vstr "Bar") rfl rfl

/-- C2: iter_children with recursive true is a depth-first pre-order
traversal: a mapping with a truthy class entry yields its own promoted
object first, followed by the objects of every dict yielded by
iter_contents, each expanded recursively with recursive forced true; on
the Foo dict with a nested Bar dict it yields exactly the Foo object then
the Bar object. -/
theorem C2_iter_children_preorder :
    (∀ (reg : Registry) (es : List (String × Value)) (tag : Value),
      pyGet es "class" = some tag → truthy tag = true →
      iter_children reg es true =
        Value.vobj (get_pix_cls reg tag) es ::
          (iter_contents es).flatMap (fun x => iter_children reg x true)) ∧
    iter_children [] fooEntries true =
      [Value.vobj fooType fooEntries, Value.vobj barType barEntries] := by
  constructor
  · intro reg es tag h1 h2
    exact iter_children_tagged reg es tag h1 h2
  · rw [iter_children_tagged [] fooEntries (.vstr "Foo") rfl rfl]
    have hc : iter_contents fooEntries = [barEntries] := rfl
    rw [hc]
    rw [show (List.flatMap [barEntries] fun x => iter_children [] x true) =
      iter_children [] barEntries true ++ [] from by simp]
    rw [iter_children_tagged [] barEntries (.vstr "Bar") rfl rfl]
    have hc2 : iter_contents barEntries = [] := rfl
    rw [hc2]
    rfl

theorem C2_witness :
    iter_children [] barEntries true =
      Value.vobj (get_pix_cls [] (.vstr "Bar")) barEntries ::
        (iter_contents barEntries).flatMap (fun x => iter_children [] x true) :=
  C2_iter_children_preorder.1 [] barEntries (.vstr "Bar") rfl rfl

/-- C3: each registration returns the registered class unchanged and
appends it to the ordered list for the name, and a later synthesis for a
name first registered with B1 then B2 yields a type whose bases are B1
then B2 in registration order. -/
theorem C3_register_append_order :
    ∀ (reg : Registry) (n : String) (B1 B2 : BCls),
      (register reg n B1).2 = B1 ∧
      (register (register reg n B1).1 n B2).2 = B2 ∧
      pyGet (register (register reg n B1).1 n B2).1 n =
        some ((pyGet reg n).getD [] ++ [B1, B2]) ∧
      (pyGet reg n = none →
        get_pix_cls (register (register reg n B1).1 n B2).1 (.vstr n) =
          ⟨n, [B1, B2]⟩) := by
  intro reg n B1 B2
  have hl2 : pyGet (register (register reg n B1).1 n B2).1 n =
      some ((pyGet (register reg n B1).1 n).getD [] ++ [B2]) :=
    register_lookup (register reg n B1).1 n B2
  rw [register_lookup reg n B1] at hl2
  refine ⟨rfl, rfl, ?_, ?_⟩
  · rw [hl2]
    simp
  · intro h0
    unfold get_pix_cls
    simp only [pyStr]
    rw [hl2, h0]
    simp

theorem C3_witness :
    (register [] "PIXImage" (BCls.behavior "T1")).2 = BCls.behavior "T1" ∧
    (register (register [] "PIXImage" (BCls.behavior "T1")).1 "PIXImage"
      (BCls.behavior "T2")).2 = BCls.behavior "T2" ∧
    pyGet (register (register [] "PIXImage" (BCls.behavior "T1")).1 "PIXImage"
      (BCls.behavior "T2")).1 "PIXImage" =
      some ((pyGet ([] : Registry) "PIXImage").getD [] ++
        [BCls.behavior "T1", BCls.behavior "T2"]) ∧
    get_pix_cls (register (register [] "PIXImage" (BCls.behavior "T1")).1
      "PIXImage" (BCls.behavior "T2")).1 (.vstr "PIXImage") =
      ⟨"PIXImage", [BCls.behavior "T1", BCls.behavior "T2"]⟩ := by
  obtain ⟨h1, h2, h3, h4⟩ :=
    C3_register_append_order [] "PIXImage" (BCls.behavior "T1")
      (BCls.behavior "T2")
  exact ⟨h1, h2, h3, h4 rfl⟩

/-- C4: objectfy maps a list to a list and a tuple to a tuple of the same
length with element order preserved and objectfy applied elementwise, and
maps a set to a set of the objectfy images; when the input is a valid
Python set (pairwise non-equal, hashable elements) the output set has the
same size. -/
theorem C4_objectfy_container_kind_preserved :
    (∀ (reg : Registry) (xs : List Value),
      objectfy reg (.vlist xs) = .vlist (xs.map (objectfy reg))) ∧
    (∀ (reg : Registry) (xs : List Value),
      objectfy reg (.vtuple xs) = .vtuple (xs.map (objectfy reg))) ∧
    (∀ (reg : Registry) (xs : List Value),
      objectfy reg (.vset xs) = .vset (pySetCtor (xs.map (objectfy reg)))) ∧
    (∀ (reg : Registry) (xs : List Value),
      pyNodup xs = true → hashableList xs = true →
      (pySetCtor (xs.map (objectfy reg))).length = xs.length) := by
  refine ⟨?_, ?_, ?_, ?_⟩
  · intro reg xs
    show Value.vlist (objectfyList reg xs) = _
    rw [objectfyList_eq_map]
  · intro reg xs
    show Value.vtuple (objectfyList reg xs) = _
    rw [objectfyList_eq_map]
  · intro reg xs
    show Value.vset (pySetCtor (objectfyList reg xs)) = _
    rw [objectfyList_eq_map]
  · intro reg xs h1 h2
    rw [map_objectfy_of_hashableList reg xs h2, pySetCtor_of_nodup xs h1]

theorem C4_witness :
    objectfy [] (.vlist [.vint 1, .vstr "a"]) =
      .vlist ([Value.vint 1, Value.vstr "a"].map (objectfy [])) ∧
    objectfy [] (.vtuple [.vint 1, .vstr "a"]) =
      .vtuple ([Value.vint 1, Value.vstr "a"].map (objectfy [])) ∧
    objectfy [] (.vset [.vint 1, .vstr "a"]) =
      .vset (pySetCtor ([Value.vint 1, Value.vstr "a"].map (objectfy []))) ∧
    (pySetCtor ([Value.vint 1, Value.vstr "a"].map (objectfy []))).length =
      [Value.vint 1, Value.vstr "a"].length :=
  ⟨C4_objectfy_container_kind_preserved.1 [] [.vint 1, .vstr "a"],
   C4_objectfy_container_kind_preserved.2.1 [] [.vint 1, .vstr "a"],
   C4_objectfy_container_kind_preserved.2.2.1 [] [.vint 1, .vstr "a"],
   C4_objectfy_container_kind_preserved.2.2.2 [] [.vint 1, .vstr "a"] rfl rfl⟩

/-- C5: synthesizing a type for a name with no registration never fails:
the result uses exactly the single default base PIXObject and its name is
the given name; in particular synthesizing Unknown with an empty registry
yields the type named Unknown over the default base. -/
theorem C5_get_pix_cls_unregistered_default :
    (∀ (reg : Registry) (name : Value), pyGet reg (pyStr name) = none →
      get_pix_cls reg name = ⟨pyStr name, [BCls.PIXObject]⟩) ∧
    get_pix_cls [] (.vstr "Unknown") = ⟨"Unknown", [BCls.PIXObject]⟩ := by
  constructor
  · intro reg name h
    unfold get_pix_cls
    rw [h]
    rfl
  · rfl

theorem C5_witness :
    get_pix_cls [("PIXImage", [BCls.behavior "T1"])] (.vstr "PIXNote") =
      ⟨"PIXNote", [BCls.PIXObject]⟩ :=
  C5_get_pix_cls_unregistered_default.1 [("PIXImage", [BCls.behavior "T1"])]
    (.vstr "PIXNote") rfl

/-- C6: objectfy on a mapping with no class entry returns a rebuilt
mapping with the same keys in the same order and objectfy applied to each
value; the untagged example mapping with keys a and b is rebuilt with
equal keys and values and nothing promoted. -/
theorem C6_objectfy_untagged_rebuild :
    (∀ (reg : Registry) (es : List (String × Value)),
      pyGet es "class" = none →
      objectfy reg (.vdict es) =
        .vdict (es.map (fun kv => (kv.1, objectfy reg kv.2))) ∧
      (es.map (fun kv => (kv.1, objectfy reg kv.2))).map Prod.fst =
        es.map Prod.fst) ∧
    objectfy [] (.vdict abEntries) = .vdict abEntries := by
  constructor
  · intro reg es h
    refine ⟨objectfy_untagged_none reg es h, ?_⟩
    rw [List.map_map]
    rfl
  · rfl

theorem C6_witness :
    objectfy [] (.vdict [("k", .vnull)]) =
      .vdict ([("k", Value.vnull)].map (fun kv => (kv.1, objectfy [] kv.2))) ∧
    ([("k", Value.vnull)].map (fun kv => (kv.1, objectfy [] kv.2))).map
      Prod.fst = [("k", Value.vnull)].map Prod.fst :=
  C6_objectfy_untagged_rebuild.1 [] [("k", .vnull)] rfl

/-- C7: objectfy returns a promoted object given to it unchanged: an
instance of a synthesized type is not a dict, sequence or set, so it
falls through to the identity branch and is not re-promoted. -/
theorem C7_objectfy_promoted_identity :
    ∀ (reg : Registry) (cls : PixType) (d : List (String × Value)),
      objectfy reg (.vobj cls d) = .vobj cls d := by
  intro reg cls d
  rfl

/-- C8: objectfy returns every scalar unchanged: None, booleans, numbers,
strings and opaque unsupported values all fall through to the identity
branch. -/
theorem C8_objectfy_scalar_identity :
    ∀ (reg : Registry) (v : Value), isScalar v = true → objectfy reg v = v := by
  intro reg v h
  cases v <;> first | rfl | simp [isScalar] at h

theorem C8_witness :
    isScalar (Value.vint 42) = true ∧
    objectfy [] (Value.vint 42) = Value.vint 42 :=
  ⟨rfl, C8_objectfy_scalar_identity [] (Value.vint 42) rfl⟩

/-- C9: the traversal operations never mutate shared state: the
state-threaded translation of objectfy returns the registry it was given
unchanged together with the pure result, and every terminating run of
the state-threaded, fuel-indexed translation of iter_children leaves the
registry unchanged and yields the pure result; the registry is touched
only by the read inside get_pix_cls. The input tree itself is immutable
data in this embedding, matching a traversal that only reads it. -/
theorem C9_traversal_registry_readonly :
    (∀ (reg : Registry) (v : Value),
      objectfyS reg v = (objectfy reg v, reg)) ∧
    (∀ (fuel : Nat) (reg : Registry) (data : List (String × Value))
       (r : Bool) (out : List Value) (reg2 : Registry),
      iter_childrenSF fuel reg data r = some (out, reg2) →
      reg2 = reg ∧ out = iter_children reg data r) :=
  ⟨objectfyS_frame, fun fuel => (iter_childrenSF_frame fuel).1⟩

theorem C9_witness :
    objectfyS [] (.vdict fooEntries) = (objectfy [] (.vdict fooEntries), []) ∧
    (([] : Registry) = ([] : Registry) ∧
      [Value.vobj fooType fooEntries, Value.vobj barType barEntries] =
        iter_children [] fooEntries true) :=
  ⟨C9_traversal_registry_readonly.1 [] (.vdict fooEntries),
   C9_traversal_registry_readonly.2 4 [] fooEntries true
     [Value.vobj fooType fooEntries, Value.vobj barType barEntries] [] rfl⟩

/-- C10: a mapping whose class entry is present but falsy is treated as
untagged by both transforms: objectfy rebuilds it with objectfy applied
to each value instead of promoting it, and iter_children yields no object
for the node itself while still searching its contents; on the example
with an empty-string tag and a tagged Bar descendant, iter_children still
finds the Bar object. -/
theorem C10_falsy_tag_untagged :
    (∀ (reg : Registry) (es : List (String × Value)) (tag : Value),
      pyGet es "class" = some tag → truthy tag = false →
      objectfy reg (.vdict es) =
        .vdict (es.map (fun kv => (kv.1, objectfy reg kv.2))) ∧
      iter_children reg es true =
        (iter_contents es).flatMap (fun x => iter_children reg x true)) ∧
    iter_children [] falsyEntries true = [Value.vobj barType barEntries] := by
  constructor
  · intro reg es tag h1 h2
    exact ⟨objectfy_untagged_falsy reg es tag h1 h2,
      iter_children_falsy reg es tag h1 h2⟩
  · rw [iter_children_falsy [] falsyEntries (.vstr "") rfl rfl]
    have hc : iter_contents falsyEntries = [barEntries] := rfl
    rw [hc]
    rw [show (List.flatMap [barEntries] fun x => iter_children [] x true) =
      iter_children [] barEntries true ++ [] from by simp]
    rw [iter_children_tagged [] barEntries (.vstr "Bar") rfl rfl]
    have hc2 : iter_contents barEntries = [] := rfl
    rw [hc2]
    rfl

theorem C10_witness :
    objectfy [] (.vdict falsyEntries) =
      .vdict (falsyEntries.map (fun kv => (kv.1, objectfy [] kv.2))) ∧
    iter_children [] falsyEntries true =
      (iter_contents falsyEntries).flatMap (fun x => iter_children [] x true) :=
  C10_falsy_tag_untagged.1 [] falsyEntries (.vstr "") rfl rfl

end Pix
